import Mathlib

/-!
Verification of the deepgroebner repository's reinforcement-learning
environments and value networks against its natural-language specification.

The development shallowly embeds the Python source:

* rowreduce/environments.py : RowEchelonEnvironment, RowChoiceEnvironment
  and RowChoiceEnvironmentExtra, their reset and step methods and terminal
  predicates, over matrices modelled as lists of rows of integers.
* deepgroebner/networks.py : PairsLeftBaseline.predict and
  AgentBaseline.predict.
* environments/atari.py : AtariEnv.step, with the wrapped gym environment
  as an opaque function parameter.

Fallible Python operations (numpy IndexError on out-of-range indexing) are
modelled with Option, returning none where the Python code would raise.
Randomness (numpy random draws) is modelled by passing the stream of draws
explicitly. Aliasing claims are settled over an explicit heap of array
objects, where numpy in-place writes update a heap cell and np.copy
allocates a fresh cell.
-/

namespace DeepGroebner

/-- A numpy 2-d integer array, as a list of rows. -/
abbrev Mat := List (List Int)

/-- Index of the first nonzero entry of a row, if any: embeds the Python
idiom next((i for i, x in enumerate(row) if x != 0), None). -/
def firstNonzero : List Int → Option Nat
  | [] => none
  | x :: xs => if x = 0 then (firstNonzero xs).map (· + 1) else some 0

/-- Accumulator loop of RowEchelonEnvironment._is_row_echelon: prev is the
running prev_lead, starting at some (-1) and becoming none for a zero row. -/
def isRowEchelonAux : Option Int → Mat → Bool
  | _, [] => true
  | prev, r :: rs =>
    match firstNonzero r with
    | none => isRowEchelonAux none rs
    | some nl =>
      match prev with
      | none => false
      | some p => if (nl : Int) ≤ p then false else isRowEchelonAux (some (nl : Int)) rs

/-- RowEchelonEnvironment._is_row_echelon. -/
def isRowEchelon (m : Mat) : Bool := isRowEchelonAux (some (-1)) m

/-- An entry of RowEchelonEnvironment.action_tuples. -/
inductive RowAction where
  | swap (i j : Nat)
  | add (i j : Nat)
deriving DecidableEq

/-- RowEchelonEnvironment.action_tuples: all swaps (i, j) with j < i followed
by all adds (i, j) with i ≠ j. -/
def action_tuples (N : Nat) : List RowAction :=
  ((List.range N).flatMap fun i => (List.range i).map fun j => RowAction.swap i j) ++
  ((List.range N).flatMap fun i =>
    (List.range N).filterMap fun j => if i ≠ j then some (RowAction.add i j) else none)

/-- RowEchelonEnvironment._add_rows on pair (i, j): row j becomes
(row j + row i) mod F. -/
def addRows (F : Int) (m : Mat) (i j : Nat) : Mat :=
  m.set j (List.zipWith (fun a b => (a + b) % F) (m.getD j []) (m.getD i []))

/-- RowEchelonEnvironment._swap_rows on pair (i, j). -/
def swapRows (m : Mat) (i j : Nat) : Mat :=
  (m.set i (m.getD j [])).set j (m.getD i [])

/-- RowEchelonEnvironment.step: looks up the action tuple (none models the
IndexError a Python list raises on an out-of-range index), mutates the
matrix, and returns (observation value, reward, done). -/
def rowEchelonStep (F : Int) (N : Nat) (m : Mat) (a : Nat) : Option (Mat × Int × Bool) :=
  match (action_tuples N).get? a with
  | none => none
  | some (RowAction.add i j) =>
    let m2 := addRows F m i j
    some (m2, -1, isRowEchelon m2)
  | some (RowAction.swap i j) =>
    let m2 := swapRows m i j
    some (m2, -1, isRowEchelon m2)

/-- RowChoiceEnvironment._is_reduced (also RowChoiceEnvironmentExtra._is_reduced,
which is textually identical): every row's lead column is zero in all other
rows. -/
def isReduced (N : Nat) (m : Mat) : Bool :=
  (List.range N).all fun row =>
    match firstNonzero (m.getD row []) with
    | none => true
    | some lead => (List.range N).all fun i =>
        decide (i = row) || decide ((m.getD i []).getD lead 0 = 0)

/-- Pointwise sum of two rows mod 2, as in matrix[i] = (matrix[i] + matrix[action]) % 2. -/
def addMod2 (dst src : List Int) : List Int :=
  List.zipWith (fun a b => (a + b) % 2) dst src

/-- The elimination loop of RowChoiceEnvironment.step: for each i in
range(N) with i ≠ action and matrix[i, lead] ≠ 0, add row action into
row i mod 2 and count the move. -/
def rowChoiceLoop (N : Nat) (m : Mat) (action lead : Nat) : Mat × Nat :=
  (List.range N).foldl
    (fun acc i =>
      if i ≠ action ∧ (acc.1.getD i []).getD lead 0 ≠ 0 then
        (acc.1.set i (addMod2 (acc.1.getD i []) (acc.1.getD action [])), acc.2 + 1)
      else acc)
    (m, 0)

/-- RowChoiceEnvironment.step: none models the numpy IndexError raised by
matrix[action, :] when the action is out of range; otherwise the chosen
row's lead is found, other rows are updated mod 2, and
(observation value, reward, done) is returned. -/
def rowChoiceStep (N : Nat) (m : Mat) (action : Nat) : Option (Mat × Int × Bool) :=
  match m.get? action with
  | none => none
  | some row =>
    match firstNonzero row with
    | none => some (m, -100, isReduced N m)
    | some lead =>
      let res := rowChoiceLoop N m action lead
      if res.2 = 0 then some (res.1, -100, isReduced N res.1)
      else some (res.1, -(res.2 : Int), isReduced N res.1)

/-- RowChoiceEnvironmentExtra.step: additionally reads rows[action, 0]
(none models the IndexError when out of range), zeroes it, and uses the
1000 * (is_new - 1) reward in the two no-op branches. -/
def extraStep (N : Nat) (rows : List Int) (m : Mat) (action : Nat) :
    Option ((List Int × Mat) × Int × Bool) :=
  match rows.get? action with
  | none => none
  | some isNew =>
    let rows2 := rows.set action 0
    match m.get? action with
    | none => none
    | some row =>
      match firstNonzero row with
      | none => some ((rows2, m), 1000 * (isNew - 1), isReduced N m)
      | some lead =>
        let res := rowChoiceLoop N m action lead
        if res.2 = 0 then some ((rows2, res.1), 1000 * (isNew - 1), isReduced N res.1)
        else some ((rows2, res.1), -(res.2 : Int), isReduced N res.1)

/-- Iterated stepping of RowEchelonEnvironment along the action stream acts:
the state after k steps, or none if some action raised. -/
def echelonIter (F : Int) (N : Nat) (acts : Nat → Nat) (m : Mat) : Nat → Option Mat
  | 0 => some m
  | k + 1 =>
    match rowEchelonStep F N m (acts 0) with
    | none => none
    | some s => echelonIter F N (fun n => acts (n + 1)) s.1 k

/-- Along the action stream acts from state m, every state the environment
visits fails the terminal predicate, so done stays false forever. -/
def echelonNeverDone (F : Int) (N : Nat) (m : Mat) (acts : Nat → Nat) : Prop :=
  ∀ k s, echelonIter F N acts m k = some s → isRowEchelon s = false

/-- Iterated stepping of RowChoiceEnvironment along the action stream acts. -/
def choiceIter (N : Nat) (acts : Nat → Nat) (m : Mat) : Nat → Option Mat
  | 0 => some m
  | k + 1 =>
    match rowChoiceStep N m (acts 0) with
    | none => none
    | some s => choiceIter N (fun n => acts (n + 1)) s.1 k

/-- Along the action stream acts from state m, every state RowChoiceEnvironment
visits fails the terminal predicate, so done stays false forever. -/
def choiceNeverDone (N : Nat) (m : Mat) (acts : Nat → Nat) : Prop :=
  ∀ k s, choiceIter N acts m k = some s → isReduced N s = false

/-- A complete or partial RowEchelonEnvironment episode: runs the listed
actions in order, returning the final state and the total accumulated
reward, or none if some action raised. -/
def echelonEpisode (F : Int) (N : Nat) (m : Mat) : List Nat → Option (Mat × Int)
  | [] => some (m, 0)
  | a :: rest =>
    match rowEchelonStep F N m a with
    | none => none
    | some s =>
      match echelonEpisode F N s.1 rest with
      | none => none
      | some t => some (t.1, s.2.1 + t.2)

/-- RowEchelonEnvironment.reset: draws matrices from the given stream and
keeps resampling while the draw is already in row echelon form; none models
exhausting the modelled draw stream (the Python loop would keep drawing). -/
def echelonResetLoop : List Mat → Option Mat
  | [] => none
  | d :: rest => if isRowEchelon d then echelonResetLoop rest else some d

/-- RowChoiceEnvironment._random_matrix: 1 * (rand > (1 - density)) applied
entrywise to a matrix of uniform draws. -/
def choiceRandomMatrix (density : Rat) (rand : List (List Rat)) : Mat :=
  rand.map fun row => row.map fun x => if 1 - density < x then 1 else 0

/-- RowChoiceEnvironment.reset: resamples while the drawn matrix is already
reduced. -/
def choiceResetLoop (N : Nat) (density : Rat) : List (List (List Rat)) → Option Mat
  | [] => none
  | d :: rest =>
    let m := choiceRandomMatrix density d
    if isReduced N m then choiceResetLoop N density rest else some m

/-- RowChoiceEnvironmentExtra.reset: resamples while the drawn matrix is
already reduced, then sets rows to the all-ones vector. -/
def extraResetLoop (N : Nat) (density : Rat) : List (List (List Rat)) → Option (List Int × Mat)
  | [] => none
  | d :: rest =>
    let m := choiceRandomMatrix density d
    if isReduced N m then extraResetLoop N density rest
    else some (List.replicate N 1, m)

/-- An info dictionary of the wrapped gym Atari environment; the only key the
wrapper reads is ale.lives. -/
structure AtariInfo where
  aleLives : Int
deriving DecidableEq

/-- A raw RGB frame from gym: height by width by channel. -/
abbrev RGBFrame := List (List (List Int))

/-- A component of a Python tuple returned by a step method: a numpy array,
a stacked frame history, a number, a boolean, or an info dictionary. -/
inductive PyVal where
  | npmat (m : Mat)
  | npstack (fs : List Mat)
  | int (n : Int)
  | bool (b : Bool)
  | dict (info : AtariInfo)
deriving DecidableEq

/-- Whether a Python value is a dictionary. -/
def PyVal.isDict : PyVal → Bool
  | .dict _ => true
  | _ => false

/-- The tuple returned by RowEchelonEnvironment.step, as the list of its
components: (np.copy(self.matrix), -1, self._is_row_echelon()). -/
def rowEchelonStepTuple (F : Int) (N : Nat) (m : Mat) (a : Nat) : Option (List PyVal) :=
  (rowEchelonStep F N m a).map fun s => [PyVal.npmat s.1, PyVal.int s.2.1, PyVal.bool s.2.2]

/-- The tuple returned by RowChoiceEnvironment.step, as the list of its
components: (np.copy(self.matrix), reward, self._is_reduced()). -/
def rowChoiceStepTuple (N : Nat) (m : Mat) (a : Nat) : Option (List PyVal) :=
  (rowChoiceStep N m a).map fun s => [PyVal.npmat s.1, PyVal.int s.2.1, PyVal.bool s.2.2]

/-- Every other element of a list, embedding the numpy stride slice [::2]. -/
def everyOther {α : Type} : List α → List α
  | [] => []
  | [x] => [x]
  | x :: _ :: rest => x :: everyOther rest

/-- Frame preprocessing of AtariEnv: np.mean(state[::2, ::2], axis=2) followed
by truncation to uint8, modelled with integer division by the channel count. -/
def processFrame (state : RGBFrame) : Mat :=
  (everyOther state).map fun row =>
    (everyOther row).map fun px => px.sum / (px.length : Int)

/-- The mutable fields of AtariEnv, with the wrapped gym environment state
abstracted by the type g. -/
structure AtariState (g : Type) where
  env : g
  lives : Int
  history : List Mat
  resetOnDeath : Bool

/-- AtariEnv.step: the wrapped gym environment is the opaque function
gymStep returning (state, reward, done, info); the wrapper overrides done on
life loss, rotates the 4-frame history, and returns the 4-component tuple
(np.stack(self.history, axis=-1), np.sign(reward), done, info). -/
def atariStep {g : Type} (gymStep : g → Nat → g × RGBFrame × Int × Bool × AtariInfo)
    (s : AtariState g) (action : Nat) : AtariState g × List PyVal :=
  let r := gymStep s.env action
  let env2 := r.1
  let state := r.2.1
  let reward := r.2.2.1
  let done := r.2.2.2.1
  let info := r.2.2.2.2
  let dl := if info.aleLives < s.lives ∧ s.resetOnDeath then (true, info.aleLives)
            else (done, s.lives)
  let frame := processFrame state
  let hist := frame :: s.history.dropLast
  (⟨env2, dl.2, hist, s.resetOnDeath⟩,
   [PyVal.npstack hist, PyVal.int reward.sign, PyVal.bool dl.1, PyVal.dict info])

/-- A numpy n-d array of floats, modelled as its shape together with its
flattened data. -/
structure NDArray where
  shape : List Nat
  data : List Rat
deriving DecidableEq

/-- PairsLeftBaseline.predict: unpacks states, pairs, *_ = X.shape (none
models the ValueError when the shape has fewer than two axes) and returns
np.full((states, 1), fill_value) for the discounted-pairs-left fill value. -/
def pairsLeftPredict (gam : Rat) (X : NDArray) : Option NDArray :=
  match X.shape with
  | states :: pairs :: _ =>
    let fill := if gam = 1 then -(pairs : Rat) else -(1 - gam ^ pairs) / (1 - gam)
    some ⟨[states, 1], List.replicate states fill⟩
  | _ => none

/-- Allocation model of np.copy: append a copy of cell i to the heap of
array objects and return the fresh reference. -/
def npCopy (h : List Mat) (i : Nat) : List Mat × Nat :=
  (h ++ [h.getD i []], h.length)

/-- RowEchelonEnvironment.step over the array heap: the in-place row writes
update the cell the environment holds (ref), then np.copy allocates the
observation; returns (heap, observation ref, reward, done). -/
def echelonStepHeap (F : Int) (N : Nat) (h : List Mat) (ref : Nat) (a : Nat) :
    Option (List Mat × Nat × Int × Bool) :=
  match rowEchelonStep F N (h.getD ref []) a with
  | none => none
  | some s =>
    let h1 := h.set ref s.1
    let hc := npCopy h1 ref
    some (hc.1, hc.2, s.2.1, s.2.2)

/-- RowChoiceEnvironment.step over the array heap: the elimination loop
writes rows of the cell held by the environment in place, then np.copy
allocates the observation. -/
def choiceStepHeap (N : Nat) (h : List Mat) (ref : Nat) (a : Nat) :
    Option (List Mat × Nat × Int × Bool) :=
  match rowChoiceStep N (h.getD ref []) a with
  | none => none
  | some s =>
    let h1 := h.set ref s.1
    let hc := npCopy h1 ref
    some (hc.1, hc.2, s.2.1, s.2.2)

/-- RowEchelonEnvironment.reset over the array heap: each draw of
self._random_matrix() allocates a fresh array, self.matrix is rebound to it,
and the returned observation is np.copy of the accepted draw; returns
(heap, internal matrix ref, observation ref). -/
def echelonResetHeap (h : List Mat) : List Mat → Option (List Mat × Nat × Nat)
  | [] => none
  | d :: rest =>
    let h1 := h ++ [d]
    if isRowEchelon d then echelonResetHeap h1 rest
    else
      let hc := npCopy h1 h.length
      some (hc.1, h.length, hc.2)

/-- Modelled from the spec: the environments stepped by AgentBaseline.predict
(BuchbergerEnv and its wrappers are not under src/); their mutable objects
live on a heap, copy() appends a deep, independent clone, and step is an
opaque state transformer returning (observation, reward, done). The loop
body of AgentBaseline.predict from deepgroebner/networks.py: act on the
current observation, step the cloned environment in place at heap index r,
accumulate discounted reward, stop when done; fuel bounds the while loop. -/
def predictLoop {σ ω : Type} (stepFn : σ → Nat → σ × ω × Rat × Bool) (act : ω → Nat)
    (gam : Rat) (heap : List σ) (r : Nat) (obs : ω) (R disc : Rat) :
    Nat → List σ × Option Rat
  | 0 => (heap, none)
  | fuel + 1 =>
    match heap.get? r with
    | none => (heap, none)
    | some cur =>
      let s := stepFn cur (act obs)
      let heap2 := heap.set r s.1
      let R2 := R + s.2.2.1 * disc
      if s.2.2.2 then (heap2, some R2)
      else predictLoop stepFn act gam heap2 r s.2.1 R2 (disc * gam) fuel

/-- AgentBaseline.predict from deepgroebner/networks.py over the environment
heap: env = env.copy() appends a clone of the argument at index i and all
stepping happens at the clone's index; obsOf models the initial state read
(env.G, env.P) if hasattr(env, G) else env._matrix(). Returns the final heap
and the rollout return (none if the fuel bound is exhausted). -/
def agentBaselinePredict {σ ω : Type} (stepFn : σ → Nat → σ × ω × Rat × Bool)
    (obsOf : σ → ω) (act : ω → Nat) (gam : Rat) (fuel : Nat)
    (heap : List σ) (i : Nat) : List σ × Option Rat :=
  match heap.get? i with
  | none => (heap, none)
  | some env0 =>
    predictLoop stepFn act gam (heap ++ [env0]) heap.length (obsOf env0) 0 1 fuel

/-- All entries of a matrix lie in the two-element field. -/
def BinMat (m : Mat) : Prop := ∀ row ∈ m, ∀ x ∈ row, x = 0 ∨ x = 1

instance : DecidablePred BinMat := fun m =>
  List.decidableBAll (fun row => ∀ x ∈ row, x = 0 ∨ x = 1) m

/-- States of RowChoiceEnvironment reachable from some reset: a non-reduced
output of _random_matrix, closed under successful steps. -/
inductive ChoiceReachable (N : Nat) : Mat → Prop
  | reset (density : Rat) (rand : List (List Rat)) :
      isReduced N (choiceRandomMatrix density rand) = false →
      ChoiceReachable N (choiceRandomMatrix density rand)
  | step (m : Mat) (a : Nat) (s : Mat × Int × Bool) :
      ChoiceReachable N m → rowChoiceStep N m a = some s →
      ChoiceReachable N s.1

/-- States (rows, matrix) of RowChoiceEnvironmentExtra reachable from some
reset, closed under successful steps. -/
inductive ExtraReachable (N : Nat) : List Int × Mat → Prop
  | reset (density : Rat) (rand : List (List Rat)) :
      isReduced N (choiceRandomMatrix density rand) = false →
      ExtraReachable N (List.replicate N 1, choiceRandomMatrix density rand)
  | step (rows : List Int) (m : Mat) (a : Nat) (s : (List Int × Mat) × Int × Bool) :
      ExtraReachable N (rows, m) → extraStep N rows m a = some s →
      ExtraReachable N s.1

theorem echelonIter_fixed (F : Int) (N : Nat) (m : Mat) (a : Nat) (r : Int) (d : Bool)
    (h : rowEchelonStep F N m a = some (m, r, d)) :
    ∀ k, echelonIter F N (fun _ => a) m k = some m := by
  intro k
  induction k with
  | zero => rfl
  | succ k ih =>
    rw [echelonIter, h]
    exact ih

theorem choiceIter_fixed (N : Nat) (m : Mat) (a : Nat) (r : Int) (d : Bool)
    (h : rowChoiceStep N m a = some (m, r, d)) :
    ∀ k, choiceIter N (fun _ => a) m k = some m := by
  intro k
  induction k with
  | zero => rfl
  | succ k ih =>
    rw [choiceIter, h]
    exact ih

/-- C1: the claim states that from every reset state of RowEchelonEnvironment
and RowChoiceEnvironment, every valid action sequence reaches done == true in
finitely many steps. This is false at the explicit reset-reachable state
[[1,0],[1,0]] of a 2 x 2 RowEchelonEnvironment: action 0 is the valid swap of
rows 1 and 0, it maps the state to itself with done == false, so the constant
action stream 0 keeps done false forever. -/
theorem C1_counterexample :
    rowEchelonStep 2 2 [[1, 0], [1, 0]] 0 = some ([[1, 0], [1, 0]], -1, false) ∧
    isRowEchelon [[1, 0], [1, 0]] = false ∧
    echelonNeverDone 2 2 [[1, 0], [1, 0]] (fun _ => 0) := by
  refine ⟨by decide, by decide, ?_⟩
  intro k s hks
  rw [echelonIter_fixed 2 2 [[1, 0], [1, 0]] 0 (-1) false (by decide) k] at hks
  cases hks
  decide

/-- C1 (amended): not every valid action sequence terminates. Both
environments admit reset-reachable states and infinite valid action streams
along which done stays false forever: in RowEchelonEnvironment, reset can
return [[1,0],[1,0]] and repeating the swap action 0 is a self-loop that is
never in row echelon form; in RowChoiceEnvironment, reset can return
[[1,1],[1,1],[0,0]] and repeatedly choosing the all-zero row 2 is a penalty
no-op self-loop that is never reduced. -/
theorem C1_amended :
    (echelonResetLoop [[[1, 0], [1, 0]]] = some [[1, 0], [1, 0]] ∧
      echelonNeverDone 2 2 [[1, 0], [1, 0]] (fun _ => 0)) ∧
    (choiceResetLoop 3 (1 / 2)
        [[[9 / 10, 9 / 10], [9 / 10, 9 / 10], [1 / 10, 1 / 10]]] =
        some [[1, 1], [1, 1], [0, 0]] ∧
      choiceNeverDone 3 [[1, 1], [1, 1], [0, 0]] (fun _ => 2)) := by
  have hm : choiceRandomMatrix (1 / 2) [[9 / 10, 9 / 10], [9 / 10, 9 / 10], [1 / 10, 1 / 10]] =
      [[1, 1], [1, 1], [0, 0]] := by
    norm_num [choiceRandomMatrix]
  refine ⟨⟨by decide, ?_⟩, ⟨?_, ?_⟩⟩
  · intro k s hks
    rw [echelonIter_fixed 2 2 [[1, 0], [1, 0]] 0 (-1) false (by decide) k] at hks
    cases hks
    decide
  · simp only [choiceResetLoop, hm]
    decide
  · intro k s hks
    rw [choiceIter_fixed 3 [[1, 1], [1, 1], [0, 0]] 2 (-100) false (by decide) k] at hks
    cases hks
    decide

theorem rowChoiceLoop_moves_le (a lead : Nat) :
    ∀ l : List Nat, ∀ acc : Mat × Nat, acc.2 ≤
      (l.foldl (fun acc i =>
        if i ≠ a ∧ (acc.1.getD i []).getD lead 0 ≠ 0 then
          (acc.1.set i (addMod2 (acc.1.getD i []) (acc.1.getD a [])), acc.2 + 1)
        else acc) acc).2 := by
  intro l
  induction l with
  | nil => intro acc; exact Nat.le_refl _
  | cons i t ih =>
    intro acc
    by_cases hc : i ≠ a ∧ (acc.1.getD i []).getD lead 0 ≠ 0
    · simp only [List.foldl_cons, if_pos hc]
      have h2 := ih (acc.1.set i (addMod2 (acc.1.getD i []) (acc.1.getD a [])), acc.2 + 1)
      exact Nat.le_trans (Nat.le_succ _) h2
    · simp only [List.foldl_cons, if_neg hc]
      exact ih acc

theorem rowChoiceLoop_moves_zero (N : Nat) (m : Mat) (a lead : Nat)
    (h : (rowChoiceLoop N m a lead).2 = 0) : (rowChoiceLoop N m a lead).1 = m := by
  have key : ∀ l : List Nat, ∀ acc : Mat × Nat,
      (l.foldl (fun acc i =>
        if i ≠ a ∧ (acc.1.getD i []).getD lead 0 ≠ 0 then
          (acc.1.set i (addMod2 (acc.1.getD i []) (acc.1.getD a [])), acc.2 + 1)
        else acc) acc).2 = acc.2 →
      (l.foldl (fun acc i =>
        if i ≠ a ∧ (acc.1.getD i []).getD lead 0 ≠ 0 then
          (acc.1.set i (addMod2 (acc.1.getD i []) (acc.1.getD a [])), acc.2 + 1)
        else acc) acc) = acc := by
    intro l
    induction l with
    | nil => intro acc _; rfl
    | cons i t ih =>
      intro acc hacc
      by_cases hc : i ≠ a ∧ (acc.1.getD i []).getD lead 0 ≠ 0
      · exfalso
        simp only [List.foldl_cons, if_pos hc] at hacc
        have hle := rowChoiceLoop_moves_le a lead t
          (acc.1.set i (addMod2 (acc.1.getD i []) (acc.1.getD a [])), acc.2 + 1)
        rw [hacc] at hle
        exact Nat.not_succ_le_self acc.2 hle
      · simp only [List.foldl_cons, if_neg hc] at hacc ⊢
        exact ih acc hacc
  have := key (List.range N) (m, 0) h
  rw [rowChoiceLoop, this]

/-- C2: the claim states that an out-of-range action makes
RowChoiceEnvironment.step return the -100 penalty as a no-op. This is false:
at the explicit reset-reachable state [[1,1],[1,1]] of a 2 x 2 environment,
action 5 is out of range and matrix[5, :] raises a numpy IndexError
(modelled by none), so no (-100)-reward tuple is returned. -/
theorem C2_counterexample :
    rowChoiceStep 2 [[1, 1], [1, 1]] 5 = none := by decide

/-- C2 (amended): an action index outside [0, N) makes
RowChoiceEnvironment.step raise an IndexError (modelled by none) rather than
return a penalty; the fixed -100 penalty no-op is instead returned,
deterministically and with the matrix unchanged, for every in-range action
that selects an all-zero row or whose elimination loop performs zero row
updates. -/
theorem C2_amended (N : Nat) (m : Mat) (a : Nat) :
    (m.length ≤ a → rowChoiceStep N m a = none) ∧
    (∀ row, m.get? a = some row → firstNonzero row = none →
      rowChoiceStep N m a = some (m, -100, isReduced N m)) ∧
    (∀ row lead, m.get? a = some row → firstNonzero row = some lead →
      (rowChoiceLoop N m a lead).2 = 0 →
      rowChoiceStep N m a = some (m, -100, isReduced N m)) := by
  refine ⟨?_, ?_, ?_⟩
  · intro hlen
    rw [rowChoiceStep, List.get?_eq_none.mpr hlen]
  · intro row hrow hlead
    simp only [rowChoiceStep, hrow, hlead]
  · intro row lead hrow hlead hmoves
    simp only [rowChoiceStep, hrow, hlead, hmoves, if_pos,
      rowChoiceLoop_moves_zero N m a lead hmoves]

theorem C2_witness :
    (([[1, 1], [1, 1]] : Mat).length ≤ 5 ∧ rowChoiceStep 2 [[1, 1], [1, 1]] 5 = none) ∧
    (([[0, 0], [1, 1]] : Mat).get? 0 = some [0, 0] ∧ firstNonzero [0, 0] = none ∧
      rowChoiceStep 2 [[0, 0], [1, 1]] 0 =
        some ([[0, 0], [1, 1]], -100, isReduced 2 [[0, 0], [1, 1]])) :=
  ⟨⟨by decide, (C2_amended 2 [[1, 1], [1, 1]] 5).1 (by decide)⟩,
   ⟨by decide, by decide,
    (C2_amended 2 [[0, 0], [1, 1]] 0).2.1 [0, 0] (by decide) (by decide)⟩⟩

/-- C3: the claim states that RowEchelonEnvironment.step,
RowChoiceEnvironment.step and AtariEnv.step all return a 4-tuple with an
info dict as the fourth component. This is false for the row-reduction
environments: at the explicit states below (valid action 0), both return a
tuple of exactly 3 components (observation, reward, done), not 4. -/
theorem C3_counterexample :
    (rowEchelonStepTuple 2 2 [[1, 0], [1, 0]] 0).map List.length = some 3 ∧
    (rowChoiceStepTuple 2 [[1, 1], [1, 1]] 0).map List.length = some 3 := by
  decide

/-- C3 (amended): AtariEnv.step returns exactly four components with an info
dict as the fourth, but RowEchelonEnvironment.step and
RowChoiceEnvironment.step return exactly three components
(observation, reward, done) and no info dict. -/
theorem C3_amended {g : Type} (gymStep : g → Nat → g × RGBFrame × Int × Bool × AtariInfo)
    (st : AtariState g) (c : Nat) (F : Int) (N : Nat) (m : Mat) (a b : Nat) :
    (∀ t, rowEchelonStepTuple F N m a = some t → t.length = 3) ∧
    (∀ t, rowChoiceStepTuple N m b = some t → t.length = 3) ∧
    (atariStep gymStep st c).2.length = 4 ∧
    ((atariStep gymStep st c).2.getD 3 (PyVal.int 0)).isDict = true := by
  refine ⟨?_, ?_, rfl, rfl⟩
  · intro t ht
    rw [rowEchelonStepTuple] at ht
    cases hs : rowEchelonStep F N m a with
    | none => rw [hs] at ht; cases ht
    | some s =>
      rw [hs] at ht
      cases ht
      rfl
  · intro t ht
    rw [rowChoiceStepTuple] at ht
    cases hs : rowChoiceStep N m b with
    | none => rw [hs] at ht; cases ht
    | some s =>
      rw [hs] at ht
      cases ht
      rfl

theorem C3_witness :
    ([PyVal.npmat [[1, 0], [1, 0]], PyVal.int (-1), PyVal.bool false].length = 3) ∧
    ([PyVal.npmat [[1, 1], [0, 0]], PyVal.int (-1), PyVal.bool true].length = 3) ∧
    (atariStep (fun (_ : Unit) (_ : Nat) => ((), [[[3, 3, 3]]], 2, false, AtariInfo.mk 1))
        ⟨(), 1, [[[0]]], true⟩ 0).2.length = 4 ∧
    ((atariStep (fun (_ : Unit) (_ : Nat) => ((), [[[3, 3, 3]]], 2, false, AtariInfo.mk 1))
        ⟨(), 1, [[[0]]], true⟩ 0).2.getD 3 (PyVal.int 0)).isDict = true :=
  ⟨(C3_amended (fun (_ : Unit) (_ : Nat) => ((), [[[3, 3, 3]]], 2, false, AtariInfo.mk 1))
      ⟨(), 1, [[[0]]], true⟩ 0 2 2 [[1, 0], [1, 0]] 0 0).1 _ (by decide),
   (C3_amended (fun (_ : Unit) (_ : Nat) => ((), [[[3, 3, 3]]], 2, false, AtariInfo.mk 1))
      ⟨(), 1, [[[0]]], true⟩ 0 2 2 [[1, 1], [1, 1]] 0 0).2.1 _ (by decide),
   (C3_amended (fun (_ : Unit) (_ : Nat) => ((), [[[3, 3, 3]]], 2, false, AtariInfo.mk 1))
      ⟨(), 1, [[[0]]], true⟩ 0 2 2 [[1, 0], [1, 0]] 0 0).2.2.1,
   (C3_amended (fun (_ : Unit) (_ : Nat) => ((), [[[3, 3, 3]]], 2, false, AtariInfo.mk 1))
      ⟨(), 1, [[[0]]], true⟩ 0 2 2 [[1, 0], [1, 0]] 0 0).2.2.2⟩

/-- C4: under the default reward shaping of RowEchelonEnvironment, every
successful step returns reward -1 regardless of the chosen action and of the
resulting state, and a complete or partial episode of any action list
accumulates total reward equal to minus the number of steps taken. -/
theorem C4_theorem (F : Int) (N : Nat) :
    (∀ m a s, rowEchelonStep F N m a = some s → s.2.1 = -1) ∧
    (∀ acts m mf R, echelonEpisode F N m acts = some (mf, R) →
      R = -(acts.length : Int)) := by
  have hrew : ∀ m a s, rowEchelonStep F N m a = some s → s.2.1 = -1 := by
    intro m a s hs
    rw [rowEchelonStep] at hs
    cases hact : (action_tuples N).get? a with
    | none => rw [hact] at hs; cases hs
    | some act =>
      rw [hact] at hs
      cases act with
      | swap i j => cases hs; rfl
      | add i j => cases hs; rfl
  refine ⟨hrew, ?_⟩
  intro acts
  induction acts with
  | nil =>
    intro m mf R h
    cases h
    rfl
  | cons a rest ih =>
    intro m mf R h
    rw [echelonEpisode] at h
    split at h
    · cases h
    · rename_i s hs
      split at h
      · cases h
      · rename_i t ht
        cases h
        have h1 := hrew m a s hs
        have h2 := ih s.1 t.1 t.2 (by rw [ht])
        rw [h1, h2]
        simp only [List.length_cons]
        push_cast
        ring

theorem C4_witness :
    echelonEpisode 2 2 [[1, 0], [1, 0]] [0, 0] = some ([[1, 0], [1, 0]], -2) ∧
    (-2 : Int) = -(([0, 0] : List Nat).length : Int) :=
  ⟨by decide,
   (C4_theorem 2 2).2 [0, 0] [[1, 0], [1, 0]] [[1, 0], [1, 0]] (-2) (by decide)⟩

/-- C5: for every state and action, the done flag returned by a successful
step equals the terminal predicate evaluated at the state after the update:
_is_row_echelon for RowEchelonEnvironment and _is_reduced for
RowChoiceEnvironment. The environment state is the matrix alone, so no step
counter or maximum-step cutoff exists that could force done. -/
theorem C5_theorem (F : Int) (N : Nat) (m : Mat) (a : Nat) :
    (∀ s, rowEchelonStep F N m a = some s → s.2.2 = isRowEchelon s.1) ∧
    (∀ s, rowChoiceStep N m a = some s → s.2.2 = isReduced N s.1) := by
  constructor
  · intro s hs
    rw [rowEchelonStep] at hs
    cases hact : (action_tuples N).get? a with
    | none => rw [hact] at hs; cases hs
    | some act =>
      rw [hact] at hs
      cases act with
      | swap i j => cases hs; rfl
      | add i j => cases hs; rfl
  · intro s hs
    rw [rowChoiceStep] at hs
    split at hs
    · cases hs
    · split at hs
      · cases hs; rfl
      · simp only [] at hs
        split at hs
        · cases hs; rfl
        · cases hs; rfl

theorem C5_witness :
    (rowEchelonStep 2 2 [[1, 0], [1, 0]] 0 = some ([[1, 0], [1, 0]], -1, false) ∧
      (false : Bool) = isRowEchelon [[1, 0], [1, 0]]) ∧
    (rowChoiceStep 2 [[1, 1], [1, 1]] 0 = some ([[1, 1], [0, 0]], -1, true) ∧
      (true : Bool) = isReduced 2 [[1, 1], [0, 0]]) :=
  ⟨⟨by decide, (C5_theorem 2 2 [[1, 0], [1, 0]] 0).1 ([[1, 0], [1, 0]], -1, false) (by decide)⟩,
   ⟨by decide, (C5_theorem 2 2 [[1, 1], [1, 1]] 0).2 ([[1, 1], [0, 0]], -1, true) (by decide)⟩⟩

theorem predictLoop_get?_ne {σ ω : Type} (stepFn : σ → Nat → σ × ω × Rat × Bool)
    (act : ω → Nat) (gam : Rat) (r j : Nat) (hj : j ≠ r) :
    ∀ fuel heap obs R disc,
      (predictLoop stepFn act gam heap r obs R disc fuel).1.get? j = heap.get? j := by
  intro fuel
  induction fuel with
  | zero => intro heap obs R disc; rfl
  | succ fuel ih =>
    intro heap obs R disc
    rw [predictLoop]
    split
    · rfl
    · simp only []
      split
      · simp [List.get?_eq_getElem?, List.getElem?_set_ne (Ne.symm hj)]
      · rw [ih]
        simp [List.get?_eq_getElem?, List.getElem?_set_ne (Ne.symm hj)]

/-- C6: AgentBaseline.predict steps only the clone that env = env.copy()
creates at a fresh heap index, so every pre-existing environment object on
the heap, in particular the argument at index j, is identical before and
after the call. -/
theorem C6_theorem {σ ω : Type} (stepFn : σ → Nat → σ × ω × Rat × Bool)
    (obsOf : σ → ω) (act : ω → Nat) (gam : Rat) (fuel : Nat)
    (heap : List σ) (i j : Nat) (hj : j < heap.length) :
    (agentBaselinePredict stepFn obsOf act gam fuel heap i).1.get? j = heap.get? j := by
  rw [agentBaselinePredict]
  split
  · rfl
  · rw [predictLoop_get?_ne stepFn act gam heap.length j (Nat.ne_of_lt hj) fuel _ _ _ _]
    simp [List.get?_eq_getElem?, List.getElem?_append_left hj]

theorem C6_witness :
    (0 : Nat) < ([5] : List Nat).length ∧
    (agentBaselinePredict (fun s _ => (s + 1, s, (-1 : Rat), true)) id id 1 3 [5] 0).1.get? 0 =
      ([5] : List Nat).get? 0 :=
  ⟨by decide,
   C6_theorem (fun s _ => (s + 1, s, (-1 : Rat), true)) id id 1 3 [5] 0 0 (by decide)⟩

theorem getD_set_ne (l : List Mat) (i j : Nat) (x : Mat) (h : i ≠ j) :
    (l.set i x).getD j [] = l.getD j [] := by
  simp [List.getD_eq_getElem?_getD, List.getElem?_set_ne h]

/-- C7: the observations of the row-reduction environments are np.copy
allocations, never aliases of the internal matrix: a successful heap step of
RowEchelonEnvironment or RowChoiceEnvironment returns an observation
reference distinct from the environment's matrix cell, holding the same
matrix value, and writing through the observation reference leaves the
internal cell (hence every subsequent reset or step, which read only that
cell) unchanged; likewise for the observation returned by
RowEchelonEnvironment.reset. -/
theorem C7_theorem (F : Int) (N : Nat) (h : List Mat) (ref : Nat) (a : Nat)
    (href : ref < h.length) :
    (∀ s : List Mat × Nat × Int × Bool, echelonStepHeap F N h ref a = some s →
      s.2.1 ≠ ref ∧ s.1.getD s.2.1 [] = s.1.getD ref [] ∧
        ∀ x, (s.1.set s.2.1 x).getD ref [] = s.1.getD ref []) ∧
    (∀ s : List Mat × Nat × Int × Bool, choiceStepHeap N h ref a = some s →
      s.2.1 ≠ ref ∧ s.1.getD s.2.1 [] = s.1.getD ref [] ∧
        ∀ x, (s.1.set s.2.1 x).getD ref [] = s.1.getD ref []) ∧
    (∀ h0 draws, ∀ s : List Mat × Nat × Nat, echelonResetHeap h0 draws = some s →
      s.2.2 ≠ s.2.1 ∧ s.1.getD s.2.2 [] = s.1.getD s.2.1 [] ∧
        ∀ x, (s.1.set s.2.2 x).getD s.2.1 [] = s.1.getD s.2.1 []) := by
  have hlen_ne : ∀ (h1 : List Mat) (r : Nat), r < h1.length → h1.length ≠ r :=
    fun h1 r hr => Ne.symm (Nat.ne_of_lt hr)
  have hcell : ∀ (h1 : List Mat) (r : Nat), r < h1.length →
      ((h1 ++ [h1.getD r []]).getD h1.length [] = (h1 ++ [h1.getD r []]).getD r [] ∧
        ∀ x, ((h1 ++ [h1.getD r []]).set h1.length x).getD r [] =
          (h1 ++ [h1.getD r []]).getD r []) := by
    intro h1 r hr
    constructor
    · simp [List.getD_eq_getElem?_getD, List.getElem?_append_left hr,
        List.getElem?_concat_length]
    · intro x
      exact getD_set_ne _ _ _ _ (hlen_ne h1 r hr)
  refine ⟨?_, ?_, ?_⟩
  · intro s hs
    rw [echelonStepHeap] at hs
    split at hs
    · cases hs
    · rename_i st hst
      simp only [npCopy] at hs
      cases hs
      have hr2 : ref < (h.set ref st.1).length := by
        rw [List.length_set]; exact href
      refine ⟨?_, (hcell _ ref hr2).1, (hcell _ ref hr2).2⟩
      rw [List.length_set]
      exact hlen_ne h ref href
  · intro s hs
    rw [choiceStepHeap] at hs
    split at hs
    · cases hs
    · rename_i st hst
      simp only [npCopy] at hs
      cases hs
      have hr2 : ref < (h.set ref st.1).length := by
        rw [List.length_set]; exact href
      refine ⟨?_, (hcell _ ref hr2).1, (hcell _ ref hr2).2⟩
      rw [List.length_set]
      exact hlen_ne h ref href
  · intro h0 draws
    induction draws generalizing h0 with
    | nil => intro s hs; cases hs
    | cons d rest ih =>
      intro s hs
      rw [echelonResetHeap] at hs
      simp only [npCopy] at hs
      split at hs
      · exact ih _ s hs
      · cases hs
        have hr2 : h0.length < (h0 ++ [d]).length := by
          simp
        refine ⟨?_, (hcell _ h0.length hr2).1, (hcell _ h0.length hr2).2⟩
        exact hlen_ne _ _ hr2

theorem C7_witness :
    ((0 : Nat) < ([[[1, 0], [1, 0]]] : List Mat).length ∧
      echelonStepHeap 2 2 [[[1, 0], [1, 0]]] 0 0 =
        some ([[[1, 0], [1, 0]], [[1, 0], [1, 0]]], 1, -1, false)) ∧
    ((1 : Nat) ≠ 0 ∧
      ([[[1, 0], [1, 0]], [[1, 0], [1, 0]]] : List Mat).getD 1 [] =
        ([[[1, 0], [1, 0]], [[1, 0], [1, 0]]] : List Mat).getD 0 [] ∧
      (([[[1, 0], [1, 0]], [[1, 0], [1, 0]]] : List Mat).set 1 [[9]]).getD 0 [] =
        ([[[1, 0], [1, 0]], [[1, 0], [1, 0]]] : List Mat).getD 0 []) :=
  ⟨⟨by decide, by decide⟩,
   ⟨((C7_theorem 2 2 [[[1, 0], [1, 0]]] 0 0 (by decide)).1
      ([[[1, 0], [1, 0]], [[1, 0], [1, 0]]], 1, -1, false) (by decide)).1,
    ((C7_theorem 2 2 [[[1, 0], [1, 0]]] 0 0 (by decide)).1
      ([[[1, 0], [1, 0]], [[1, 0], [1, 0]]], 1, -1, false) (by decide)).2.1,
    ((C7_theorem 2 2 [[[1, 0], [1, 0]]] 0 0 (by decide)).1
      ([[[1, 0], [1, 0]], [[1, 0], [1, 0]]], 1, -1, false) (by decide)).2.2 [[9]]⟩⟩

theorem binMat_choiceRandomMatrix (density : Rat) (rand : List (List Rat)) :
    BinMat (choiceRandomMatrix density rand) := by
  intro row hrow x hx
  rw [choiceRandomMatrix] at hrow
  obtain ⟨r0, _, rfl⟩ := List.mem_map.mp hrow
  obtain ⟨x0, _, rfl⟩ := List.mem_map.mp hx
  by_cases hc : 1 - density < x0
  · right; rw [if_pos hc]
  · left; rw [if_neg hc]

theorem addMod2_bin (r s : List Int) : ∀ x ∈ addMod2 r s, x = 0 ∨ x = 1 := by
  induction r generalizing s with
  | nil => intro x hx; cases hx
  | cons a t ih =>
    intro x hx
    cases s with
    | nil => cases hx
    | cons b u =>
      rw [addMod2, List.zipWith_cons_cons] at hx
      rcases List.mem_cons.mp hx with h | h
      · rw [h]; exact Int.emod_two_eq_zero_or_one (a + b)
      · exact ih u x h

theorem binMat_set (m : Mat) (i : Nat) (r : List Int) (hm : BinMat m)
    (hr : ∀ x ∈ r, x = 0 ∨ x = 1) : BinMat (m.set i r) := by
  intro row hrow x hx
  rcases List.mem_or_eq_of_mem_set hrow with hcase | hcase
  · exact hm row hcase x hx
  · exact hr x (hcase ▸ hx)

theorem binRow_getD (m : Mat) (i : Nat) (hm : BinMat m) :
    ∀ x ∈ m.getD i [], x = 0 ∨ x = 1 := by
  intro x hx
  rw [List.getD_eq_getElem?_getD] at hx
  cases hg : m[i]? with
  | none => rw [hg] at hx; cases hx
  | some row =>
    rw [hg] at hx
    exact hm row (List.getElem?_mem hg) x hx

theorem rowChoiceLoop_bin (N : Nat) (m : Mat) (a lead : Nat) (hm : BinMat m) :
    BinMat (rowChoiceLoop N m a lead).1 := by
  rw [rowChoiceLoop]
  have key : ∀ l : List Nat, ∀ acc : Mat × Nat, BinMat acc.1 →
      BinMat ((l.foldl (fun acc i =>
        if i ≠ a ∧ (acc.1.getD i []).getD lead 0 ≠ 0 then
          (acc.1.set i (addMod2 (acc.1.getD i []) (acc.1.getD a [])), acc.2 + 1)
        else acc) acc).1) := by
    intro l
    induction l with
    | nil => intro acc hacc; exact hacc
    | cons i t ih =>
      intro acc hacc
      by_cases hc : i ≠ a ∧ (acc.1.getD i []).getD lead 0 ≠ 0
      · simp only [List.foldl_cons, if_pos hc]
        exact ih _ (binMat_set _ _ _ hacc (addMod2_bin _ _))
      · simp only [List.foldl_cons, if_neg hc]
        exact ih acc hacc
  exact key (List.range N) (m, 0) hm

theorem rowChoiceStep_bin (N : Nat) (m : Mat) (a : Nat) (hm : BinMat m) :
    ∀ s : Mat × Int × Bool, rowChoiceStep N m a = some s → BinMat s.1 := by
  intro s hs
  rw [rowChoiceStep] at hs
  split at hs
  · cases hs
  · split at hs
    · cases hs; exact hm
    · rename_i row lead hlead
      simp only [] at hs
      split at hs
      · cases hs; exact rowChoiceLoop_bin N m a lead hm
      · cases hs; exact rowChoiceLoop_bin N m a lead hm

theorem extraStep_bin (N : Nat) (rows : List Int) (m : Mat) (a : Nat) (hm : BinMat m) :
    ∀ s : (List Int × Mat) × Int × Bool, extraStep N rows m a = some s → BinMat s.1.2 := by
  intro s hs
  rw [extraStep] at hs
  split at hs
  · cases hs
  · split at hs
    · cases hs
    · split at hs
      · cases hs; exact hm
      · rename_i row lead hlead
        simp only [] at hs
        split at hs
        · cases hs; exact rowChoiceLoop_bin N m a lead hm
        · cases hs; exact rowChoiceLoop_bin N m a lead hm

/-- C8: every matrix entry of RowChoiceEnvironment and
RowChoiceEnvironmentExtra lies in the set of 0 and 1 after reset
(_random_matrix thresholds uniform draws to 0 or 1), and every successful
step preserves this (row updates are taken mod 2), so every reachable state
has all matrix entries in that set. -/
theorem C8_theorem (N : Nat) :
    (∀ m, ChoiceReachable N m → BinMat m) ∧
    (∀ s : List Int × Mat, ExtraReachable N s → BinMat s.2) := by
  constructor
  · intro m h
    induction h with
    | reset density rand hne => exact binMat_choiceRandomMatrix density rand
    | step m a s hm hstep ih => exact rowChoiceStep_bin N m a ih s hstep
  · intro s h
    induction h with
    | reset density rand hne => exact binMat_choiceRandomMatrix density rand
    | step rows m a s hm hstep ih => exact extraStep_bin N rows m a ih s hstep

theorem C8_witness :
    BinMat (choiceRandomMatrix 1 [[1, 0], [1, 0]]) ∧
    BinMat ((List.replicate 2 (1 : Int), choiceRandomMatrix 1 [[1, 0], [1, 0]]) :
      List Int × Mat).2 :=
  ⟨(C8_theorem 2).1 _ (ChoiceReachable.reset 1 [[1, 0], [1, 0]] (by
      have hm : choiceRandomMatrix 1 [[1, 0], [1, 0]] = [[1, 0], [1, 0]] := by
        norm_num [choiceRandomMatrix]
      rw [hm]; decide)),
   (C8_theorem 2).2 _ (ExtraReachable.reset 1 [[1, 0], [1, 0]] (by
      have hm : choiceRandomMatrix 1 [[1, 0], [1, 0]] = [[1, 0], [1, 0]] := by
        norm_num [choiceRandomMatrix]
      rw [hm]; decide))⟩

/-- C9: reset never returns a terminal state: the reset loop of each
row-reduction environment keeps resampling while the drawn matrix satisfies
the terminal predicate, so whenever it returns, _is_row_echelon
(RowEchelonEnvironment) respectively _is_reduced (RowChoiceEnvironment and
RowChoiceEnvironmentExtra) is false, and a zero-step episode is impossible. -/
theorem C9_theorem :
    (∀ draws m, echelonResetLoop draws = some m → isRowEchelon m = false) ∧
    (∀ N density draws m, choiceResetLoop N density draws = some m →
      isReduced N m = false) ∧
    (∀ N density draws, ∀ s : List Int × Mat, extraResetLoop N density draws = some s →
      isReduced N s.2 = false) := by
  refine ⟨?_, ?_, ?_⟩
  · intro draws
    induction draws with
    | nil => intro m hm; cases hm
    | cons d rest ih =>
      intro m hm
      rw [echelonResetLoop] at hm
      by_cases hd : isRowEchelon d = true
      · rw [if_pos hd] at hm; exact ih m hm
      · rw [if_neg hd] at hm
        cases hm
        exact Bool.eq_false_iff.mpr hd
  · intro N density draws
    induction draws with
    | nil => intro m hm; cases hm
    | cons d rest ih =>
      intro m hm
      rw [choiceResetLoop] at hm
      by_cases hd : isReduced N (choiceRandomMatrix density d) = true
      · rw [if_pos hd] at hm; exact ih m hm
      · rw [if_neg hd] at hm
        cases hm
        exact Bool.eq_false_iff.mpr hd
  · intro N density draws
    induction draws with
    | nil => intro s hs; cases hs
    | cons d rest ih =>
      intro s hs
      rw [extraResetLoop] at hs
      by_cases hd : isReduced N (choiceRandomMatrix density d) = true
      · rw [if_pos hd] at hs; exact ih s hs
      · rw [if_neg hd] at hs
        cases hs
        exact Bool.eq_false_iff.mpr hd

theorem C9_witness :
    (echelonResetLoop [[[1, 0], [1, 0]]] = some [[1, 0], [1, 0]] ∧
      isRowEchelon [[1, 0], [1, 0]] = false) ∧
    (choiceResetLoop 2 1 [[[1, 0], [1, 0]]] = some (choiceRandomMatrix 1 [[1, 0], [1, 0]]) ∧
      isReduced 2 (choiceRandomMatrix 1 [[1, 0], [1, 0]]) = false) ∧
    (extraResetLoop 2 1 [[[1, 0], [1, 0]]] =
        some (List.replicate 2 1, choiceRandomMatrix 1 [[1, 0], [1, 0]]) ∧
      isReduced 2 ((List.replicate 2 (1 : Int), choiceRandomMatrix 1 [[1, 0], [1, 0]]) :
        List Int × Mat).2 = false) := by
  have hm : choiceRandomMatrix 1 [[1, 0], [1, 0]] = [[1, 0], [1, 0]] := by
    norm_num [choiceRandomMatrix]
  have hred : isReduced 2 (choiceRandomMatrix 1 [[1, 0], [1, 0]]) = false := by
    rw [hm]; decide
  have hc : choiceResetLoop 2 1 [[[1, 0], [1, 0]]] =
      some (choiceRandomMatrix 1 [[1, 0], [1, 0]]) := by
    rw [choiceResetLoop]
    simp only [hred, Bool.false_eq_true, if_false]
  have he : extraResetLoop 2 1 [[[1, 0], [1, 0]]] =
      some (List.replicate 2 1, choiceRandomMatrix 1 [[1, 0], [1, 0]]) := by
    rw [extraResetLoop]
    simp only [hred, Bool.false_eq_true, if_false]
  exact ⟨⟨by decide, C9_theorem.1 [[[1, 0], [1, 0]]] [[1, 0], [1, 0]] (by decide)⟩,
    ⟨hc, C9_theorem.2.1 2 1 [[[1, 0], [1, 0]]] _ hc⟩,
    ⟨he, C9_theorem.2.2 2 1 [[[1, 0], [1, 0]]] _ he⟩⟩

/-- C10: PairsLeftBaseline.predict depends only on the shape of its input:
two inputs of equal shape yield equal outputs, and for shape
states :: pairs :: rest the result is the (states, 1) array filled with
-pairs when gam = 1 and -(1 - gam ^ pairs) / (1 - gam) otherwise. -/
theorem C10_theorem (gam : Rat) (X Y : NDArray) :
    (X.shape = Y.shape → pairsLeftPredict gam X = pairsLeftPredict gam Y) ∧
    (∀ s p rest, X.shape = s :: p :: rest →
      pairsLeftPredict gam X =
        some ⟨[s, 1],
          List.replicate s (if gam = 1 then -(p : Rat) else -(1 - gam ^ p) / (1 - gam))⟩) := by
  constructor
  · intro hxy
    rw [pairsLeftPredict, pairsLeftPredict, hxy]
  · intro s p rest hX
    simp only [pairsLeftPredict, hX]

theorem C10_witness :
    ((⟨[2, 3], [5]⟩ : NDArray).shape = (⟨[2, 3], [7, 8]⟩ : NDArray).shape) ∧
    pairsLeftPredict 1 ⟨[2, 3], [5]⟩ = pairsLeftPredict 1 ⟨[2, 3], [7, 8]⟩ :=
  ⟨rfl, (C10_theorem 1 ⟨[2, 3], [5]⟩ ⟨[2, 3], [7, 8]⟩).1 rfl⟩

end DeepGroebner
